import Mathlib

/-!
Verification of the Polymesh staking pallet (`pallets/staking/src/lib.rs`)
against its natural-language specification.

The Rust code is shallowly embedded: machine balances (`u128`) and indices
(`u32`) become `Nat` (all source arithmetic on them is checked or saturating,
so no wrap-around behaviour has to be modelled), storage maps become Lean
functions or association lists, and fallible dispatchables return `Except`.
-/

namespace Staking

/- Account ids, balances (`u128`), era and session indices (`u32`), reward
points (`u32`) and identity ids are all embedded as `Nat`. -/

/-- `const MAX_NOMINATIONS: usize = 16;` -/
def MAX_NOMINATIONS : Nat := 16

/-- `const MAX_UNLOCKING_CHUNKS: usize = 32;` -/
def MAX_UNLOCKING_CHUNKS : Nat := 32

/-! ## Perbill

Modelled from the spec: `Perbill` lives in the external `sp-arithmetic`
crate, which is not part of this repository's sources.  Spec §4.5 fixes its
numeric semantics: "shares are saturating fractions in [0,1]; multiplication
against integer balances truncates; rounding loss ... never manufactured".
A `Perbill` is a fraction with denominator `10^9`; `from_rational_approximation`
clamps the numerator to the denominator and truncates; products truncate;
sums and differences saturate. -/

def ACCURACY : Nat := 1000000000

structure Perbill where
  parts : Nat
deriving DecidableEq, Repr

/-- Modelled from the spec: `Perbill::from_rational_approximation(p, q)` of
the external `sp-arithmetic` crate — the fraction `p/q` clamped into `[0,1]`
with the convention that `q` is at least one, truncated to `10^9` parts. -/
def Perbill.fromRational (p q : Nat) : Perbill :=
  let q := max q 1
  let p := min p q
  ⟨p * ACCURACY / q⟩

def Perbill.zero : Perbill := ⟨0⟩

def Perbill.one : Perbill := ⟨ACCURACY⟩

/-- Modelled from the spec: truncating product of two saturating fractions. -/
def Perbill.mul (a b : Perbill) : Perbill :=
  ⟨a.parts * b.parts / ACCURACY⟩

/-- Modelled from the spec: saturating sum of two fractions, capped at one. -/
def Perbill.satAdd (a b : Perbill) : Perbill :=
  ⟨min (a.parts + b.parts) ACCURACY⟩

/-- Modelled from the spec: saturating difference of two fractions. -/
def Perbill.satSub (a b : Perbill) : Perbill :=
  ⟨a.parts - b.parts⟩

/-- Modelled from the spec: truncating product of a fraction and a balance. -/
def Perbill.mulBalance (a : Perbill) (b : Nat) : Nat :=
  a.parts * b / ACCURACY

def Perbill.fromPercent (x : Nat) : Perbill :=
  ⟨min x 100 * (ACCURACY / 100)⟩

/-! ## The staking ledger and its pure operations -/

/-- `struct UnlockChunk` — a (value, maturity era) pair. -/
structure UnlockChunk where
  value : Nat
  era : Nat
deriving DecidableEq, Repr

/-- `struct StakingLedger` — the ledger of a (bonded) stash. -/
structure StakingLedger where
  stash : Nat
  total : Nat
  active : Nat
  unlocking : List UnlockChunk
  last_reward : Option Nat
deriving DecidableEq, Repr

/-- Sum of the values of a list of unlocking chunks. -/
def chunkSum (l : List UnlockChunk) : Nat :=
  (l.map (·.value)).sum

/-- The documented ledger invariant: `total` "is just `active` plus all the
`unlocking` balances". -/
def StakingLedger.wf (l : StakingLedger) : Prop :=
  l.total = l.active + chunkSum l.unlocking

instance (l : StakingLedger) : Decidable l.wf := by
  unfold StakingLedger.wf; infer_instance

/-- `StakingLedger::consolidate_unlocked` — remove chunks whose era is at or
before `current_era`, reducing `total` by each removed value
(`saturating_sub`, which is `Nat` subtraction). -/
def StakingLedger.consolidate_unlocked (l : StakingLedger) (current_era : Nat) :
    StakingLedger :=
  let dropped := l.unlocking.filter (fun c => !(decide (current_era < c.era)))
  let kept := l.unlocking.filter (fun c => decide (current_era < c.era))
  { l with
    total := dropped.foldl (fun t c => t - c.value) l.total
    unlocking := kept }

/-- The loop body of `StakingLedger::rebond`, acting on the reversed
`unlocking` list (the Rust loop repeatedly inspects `unlocking.last_mut()`).
Arguments: the rebond target `value`, the reversed chunk list, and the
accumulated `unlocking_balance`.  Returns the new reversed chunk list and the
final `unlocking_balance` (which is exactly the amount added to `active`). -/
def rebondAux (value : Nat) : List UnlockChunk → Nat → List UnlockChunk × Nat
  | [], ub => ([], ub)
  | c :: rest, ub =>
    if ub + c.value ≤ value then
      if value ≤ ub + c.value then (rest, ub + c.value)
      else rebondAux value rest (ub + c.value)
    else
      let diff := value - ub
      ({ c with value := c.value - diff } :: rest, ub + diff)

/-- `StakingLedger::rebond` — move `value` back from the most recently queued
unlocking chunks into `active`, most-recent-first. -/
def StakingLedger.rebond (l : StakingLedger) (value : Nat) : StakingLedger :=
  let r := rebondAux value l.unlocking.reverse 0
  { l with active := l.active + r.2, unlocking := r.1.reverse }

/-- The `slash_out_of` closure inside `StakingLedger::slash`: slash at most
`value` out of `target`, zeroing `target` entirely if it would be left at or
below `minimum_balance` (the dust rule).  Returns the new
`(total_remaining, target, value)`. -/
def slashOutOf (minimum_balance total target value : Nat) :
    Nat × Nat × Nat :=
  let s0 := min value target
  if s0 = 0 then (total, target, value)
  else
    let target1 := target - s0
    if target1 ≤ minimum_balance then
      (total - (s0 + target1), 0, value + target1 - (s0 + target1))
    else
      (total - s0, target1, value - s0)

/-- The chunk loop of `StakingLedger::slash`: the lazy
`map(slash_out_of) ... take_while(is_zero)` iterator applies `slash_out_of`
to successive chunks and stops at (and keeps) the first chunk left non-zero;
fully drained chunks are removed. Returns the remaining chunk list, the new
`total`, and the residual `value`. -/
def slashChunks (minimum_balance : Nat) :
    List UnlockChunk → Nat → Nat → List UnlockChunk × Nat × Nat
  | [], total, value => ([], total, value)
  | c :: rest, total, value =>
    let r := slashOutOf minimum_balance total c.value value
    if r.2.1 = 0 then slashChunks minimum_balance rest r.1 r.2.2
    else ({ c with value := r.2.1 } :: rest, r.1, r.2.2)

/-- `StakingLedger::slash` — slash up to `value`, draining `active` first and
then the unlocking chunks nearest maturity first.  Returns the new ledger and
the amount actually slashed. -/
def StakingLedger.slash (l : StakingLedger) (value minimum_balance : Nat) :
    StakingLedger × Nat :=
  let pre_total := l.total
  let r := slashOutOf minimum_balance l.total l.active value
  let rc := slashChunks minimum_balance l.unlocking r.1 r.2.2
  ({ l with total := rc.2.1, active := r.2.1, unlocking := rc.1 },
   pre_total - rc.2.1)

/-! ## Remaining data model -/

/-- `enum RewardDestination`. -/
inductive RewardDestination where
  | Staked
  | Stash
  | Controller
deriving DecidableEq, Repr

/-- `struct ValidatorPrefs`. -/
structure ValidatorPrefs where
  commission : Perbill
deriving DecidableEq, Repr

/-- `struct Nominations`. -/
structure Nominations where
  targets : List Nat
  submitted_in : Nat
  suppressed : Bool
deriving DecidableEq, Repr

/-- `enum Compliance` of a permissioned validator. -/
inductive Compliance where
  | Pending
  | Active
deriving DecidableEq, Repr

/-- `struct PermissionedValidator`. -/
structure PermissionedValidator where
  compliance : Compliance
deriving DecidableEq, Repr

/-- `struct IndividualExposure`. -/
structure IndividualExposure where
  who : Nat
  value : Nat
deriving DecidableEq, Repr

/-- `struct Exposure`. -/
structure Exposure where
  total : Nat
  own : Nat
  others : List IndividualExposure
deriving DecidableEq, Repr

/-- `struct EraRewardPoints`; the `individual` BTreeMap becomes a partial map. -/
structure EraRewardPoints where
  total : Nat
  individual : Nat → Option Nat

/-- `enum Forcing`; its `Default` is `NotForcing`. -/
inductive Forcing where
  | NotForcing
  | ForceNew
  | ForceNone
  | ForceAlways
deriving DecidableEq, Repr

/-- The `decl_error!` variants used by the embedded dispatchables. -/
inductive StakingError where
  | NotController
  | NotStash
  | AlreadyBonded
  | AlreadyPaired
  | EmptyTargets
  | InsufficientValue
  | NoMoreChunks
  | NoUnlockChunk
  | InvalidEraToReward
  | InvalidNumberOfNominations
deriving DecidableEq, Repr

/-- Runtime constants supplied through the `Trait` configuration. -/
structure Config where
  sessionsPerEra : Nat
  bondingDuration : Nat
  minimumBalance : Nat
  maxNominatorRewardedPerValidator : Nat

/-- Pointwise update of a `Nat`-keyed total map. -/
def fupdate {β : Type} (f : Nat → β) (k : Nat) (v : β) : Nat → β :=
  fun a => if a = k then v else f a

/-- Pointwise update of a double map keyed by `(era, account)`. -/
def dupdate {β : Type} (f : Nat → Nat → β) (e : Nat) (a : Nat)
    (v : β) : Nat → Nat → β :=
  fun e' a' => if e' = e ∧ a' = a then v else f e' a'

/-- Lookup in an association list (an enumerable storage map). -/
def alookup {β : Type} (l : List (Nat × β)) (k : Nat) : Option β :=
  (l.find? (fun p => decide (p.1 = k))).map (·.2)

/-- Remove a key from an association list. -/
def aremove {β : Type} (l : List (Nat × β)) (k : Nat) :
    List (Nat × β) :=
  l.filter (fun p => !(decide (p.1 = k)))

/-- Insert (replacing any previous binding) into an association list. -/
def ainsert {β : Type} (l : List (Nat × β)) (k : Nat) (v : β) :
    List (Nat × β) :=
  aremove l k ++ [(k, v)]

/-- The staking pallet's storage, one field per `decl_storage!` entry used by
the claims.  `Validators`, `Nominators` and `PermissionedValidators` are kept
as association lists because the source enumerates them; the identity module
(an external collaborator, `pallets/common/src/traits/identity.rs` declares
only its interface) is abstracted by the `getIdentity` / `hasValidCdd` /
`hasValidCddWithLeeway` oracles. -/
structure State where
  bonded : Nat → Option Nat
  ledger : Nat → Option StakingLedger
  payee : Nat → Option RewardDestination
  validators : List (Nat × ValidatorPrefs)
  nominators : List (Nat × Nominations)
  permissionedValidators : List (Nat × PermissionedValidator)
  stakingLock : Nat → Option Nat
  freeBalance : Nat → Nat
  currentEra : Option Nat
  erasStartSessionIndex : Nat → Option Nat
  erasValidatorReward : Nat → Option Nat
  erasRewardPoints : Nat → EraRewardPoints
  erasValidatorPrefs : Nat → Nat → ValidatorPrefs
  erasStakers : Nat → Nat → Exposure
  erasStakersClipped : Nat → Nat → Exposure
  erasTotalStake : Nat → Nat
  forceEra : Forcing
  validatorCount : Nat
  minimumValidatorCount : Nat
  minimumBondThreshold : Nat
  historyDepth : Nat
  getIdentity : Nat → Option Nat
  hasValidCdd : Nat → Bool
  hasValidCddWithLeeway : Nat → Bool

/-! ## Ledger-affecting dispatchables -/

/-- `update_ledger` — set the stash's staking lock to the ledger total and
store the ledger under the controller. -/
def updateLedger (s : State) (controller : Nat) (l : StakingLedger) : State :=
  { s with
    stakingLock := fupdate s.stakingLock l.stash (some l.total)
    ledger := fupdate s.ledger controller (some l) }

/-- `bond(origin, controller, value, payee)`. -/
def bond (cfg : Config) (s : State) (stash controller : Nat) (value : Nat)
    (payee : RewardDestination) : Except StakingError State :=
  if (s.bonded stash).isSome then .error .AlreadyBonded
  else if (s.ledger controller).isSome then .error .AlreadyPaired
  else if value < cfg.minimumBalance then .error .InsufficientValue
  else
    let s1 := { s with
      bonded := fupdate s.bonded stash (some controller)
      payee := fupdate s.payee stash (some payee) }
    let v := min value (s.freeBalance stash)
    .ok (updateLedger s1 controller ⟨stash, v, v, [], s.currentEra⟩)

/-- The ledger change of `bond_extra`: `ledger.total += extra; ledger.active += extra`. -/
def bondExtraLedger (l : StakingLedger) (extra : Nat) : StakingLedger :=
  { l with total := l.total + extra, active := l.active + extra }

/-- `bond_extra(origin, max_additional)`. -/
def bondExtra (s : State) (stash : Nat) (maxAdditional : Nat) :
    Except StakingError State :=
  match s.bonded stash with
  | none => .error .NotStash
  | some controller =>
    match s.ledger controller with
    | none => .error .NotController
    | some l =>
      if l.total ≤ s.freeBalance stash then
        let extra := min (s.freeBalance stash - l.total) maxAdditional
        .ok (updateLedger s controller (bondExtraLedger l extra))
      else .ok s

/-- The ledger change of `unbond_balance` when `min value active` is non-zero:
deduct from `active`, absorb any remaining dust below `minimum_balance`, and
push one chunk maturing at `era`. -/
def unbondBalanceLedger (minimumBalance : Nat) (era : Nat)
    (l : StakingLedger) (value : Nat) : StakingLedger :=
  let v := min value l.active
  let active1 := l.active - v
  if active1 < minimumBalance then
    { l with active := 0, unlocking := l.unlocking ++ [⟨v + active1, era⟩] }
  else
    { l with active := active1, unlocking := l.unlocking ++ [⟨v, era⟩] }

/-- `unbond_balance(controller, ledger, value)` — a no-op when
`min value active` is zero, otherwise the ledger change above followed by
`update_ledger`.  The maturity era is `current_era.unwrap_or(0) + BondingDuration`. -/
def unbondBalance (cfg : Config) (s : State) (controller : Nat)
    (l : StakingLedger) (value : Nat) : State :=
  if min value l.active = 0 then s
  else
    updateLedger s controller
      (unbondBalanceLedger cfg.minimumBalance (s.currentEra.getD 0 + cfg.bondingDuration)
        l value)

/-- `unbond(origin, value)`. -/
def unbond (cfg : Config) (s : State) (controller : Nat) (value : Nat) :
    Except StakingError State :=
  match s.ledger controller with
  | none => .error .NotController
  | some l =>
    if l.unlocking.length < MAX_UNLOCKING_CHUNKS then
      .ok (unbondBalance cfg s controller l value)
    else .error .NoMoreChunks

/-- `kill_stash(stash)` — remove the bonded pairing, the paired controller's
ledger, and the stash's payee, validator and nominator records. -/
def killStash (s : State) (stash : Nat) : Except StakingError State :=
  match s.bonded stash with
  | none => .error .NotStash
  | some controller =>
    .ok { s with
      bonded := fupdate s.bonded stash none
      ledger := fupdate s.ledger controller none
      payee := fupdate s.payee stash none
      validators := aremove s.validators stash
      nominators := aremove s.nominators stash }

/-- `withdraw_unbonded(origin)`. -/
def withdrawUnbonded (s : State) (controller : Nat) :
    Except StakingError State :=
  match s.ledger controller with
  | none => .error .NotController
  | some l0 =>
    let l := match s.currentEra with
      | some e => l0.consolidate_unlocked e
      | none => l0
    if l.unlocking.isEmpty && l.active == 0 then
      match killStash s l.stash with
      | .error e => .error e
      | .ok s1 => .ok { s1 with stakingLock := fupdate s1.stakingLock l.stash none }
    else .ok (updateLedger s controller l)

/-- `rebond(origin, value)`. -/
def rebondCall (s : State) (controller : Nat) (value : Nat) :
    Except StakingError State :=
  match s.ledger controller with
  | none => .error .NotController
  | some l =>
    if 0 < l.unlocking.length then .ok (updateLedger s controller (l.rebond value))
    else .error .NoUnlockChunk

/-- `set_controller(origin, controller)`. -/
def setController (s : State) (stash controller : Nat) :
    Except StakingError State :=
  match s.bonded stash with
  | none => .error .NotStash
  | some old =>
    if (s.ledger controller).isSome then .error .AlreadyPaired
    else if controller ≠ old then
      let s1 := { s with bonded := fupdate s.bonded stash (some controller) }
      match s1.ledger old with
      | some l =>
        .ok { s1 with ledger := fupdate (fupdate s1.ledger old none) controller (some l) }
      | none => .ok s1
    else .ok s

/-- `nominate(origin, targets)`.  Beyond the controller and non-emptiness
checks the source raises no error: a stash with no identity or without a CDD
credential valid through the bonding-duration lookahead is silently skipped,
and an over-long target list is truncated with `take(MAX_NOMINATIONS)`. -/
def nominate (s : State) (controller : Nat) (targets : List Nat) :
    Except StakingError State :=
  match s.ledger controller with
  | none => .error .NotController
  | some l =>
    if targets.isEmpty then .error .EmptyTargets
    else
      match s.getIdentity l.stash with
      | none => .ok s
      | some nominateIdentity =>
        if s.hasValidCddWithLeeway nominateIdentity then
          let noms : Nominations :=
            ⟨targets.take MAX_NOMINATIONS, s.currentEra.getD 0, false⟩
          .ok { s with
            validators := aremove s.validators l.stash
            nominators := ainsert s.nominators l.stash noms }
        else .ok s

/-! ## Reward payouts -/

/-- `make_payout(stash, amount)` — deposit per the stash's reward-destination
policy (`Payee` falls back to its storage default, `Staked`).  The external
`Currency::deposit_into_existing` is modelled as always succeeding. -/
def makePayout (s : State) (stash : Nat) (amount : Nat) : State :=
  match (s.payee stash).getD .Staked with
  | .Controller =>
    match s.bonded stash with
    | some c => { s with freeBalance := fupdate s.freeBalance c (s.freeBalance c + amount) }
    | none => s
  | .Stash =>
    { s with freeBalance := fupdate s.freeBalance stash (s.freeBalance stash + amount) }
  | .Staked =>
    match s.bonded stash with
    | some c =>
      match s.ledger c with
      | some l =>
        let l2 := { l with active := l.active + amount, total := l.total + amount }
        let s1 :=
          { s with freeBalance := fupdate s.freeBalance stash (s.freeBalance stash + amount) }
        updateLedger s1 c l2
      | none => s
    | none => s

/-- The one-shot-per-era test
`ledger.last_reward.map(|lr| lr >= era).unwrap_or(false)`. -/
def lastRewardBlocks (lr : Option Nat) (era : Nat) : Bool :=
  match lr with
  | some x => era ≤ x
  | none => false

/-- The reward computation inside `do_payout_validator`: the era reward
points, commission snapshot and full exposure are read for the validator's
stash, and the amount is
`point_part * (commission + (1 - commission) * own/total) * era_payout`. -/
def validatorRewardAmount (s : State) (era stash eraPayout : Nat) : Nat :=
  let points := s.erasRewardPoints era
  let commission := (s.erasValidatorPrefs era stash).commission
  let exposure := s.erasStakers era stash
  let exposurePart := Perbill.fromRational exposure.own exposure.total
  let validatorPoint := (points.individual stash).getD 0
  let validatorPointPart := Perbill.fromRational validatorPoint points.total
  let reward :=
    validatorPointPart.mul
      (commission.satAdd ((Perbill.one.satSub commission).mul exposurePart))
  reward.mulBalance eraPayout

/-- `do_payout_validator(who, era)`.  Also returns the amount handed to
`make_payout` (the source reports it through the `Rewarded` event). -/
def doPayoutValidator (s : State) (who : Nat) (era : Nat) :
    Except StakingError (State × Nat) :=
  match s.erasValidatorReward era with
  | none => .error .InvalidEraToReward
  | some eraPayout =>
    match s.ledger who with
    | none => .error .NotController
    | some l =>
      if lastRewardBlocks l.last_reward era then .error .InvalidEraToReward
      else
        let l1 := { l with last_reward := some era }
        let s1 := { s with ledger := fupdate s.ledger who (some l1) }
        let amount := validatorRewardAmount s1 era l1.stash eraPayout
        .ok (makePayout s1 l1.stash amount, amount)

/-- One iteration of the `do_payout_nominator` loop: look the nominator up in
the validator's clipped exposure strictly by the supplied index; an
out-of-range index or an entry naming a different stash contributes nothing. -/
def nomPairAcc (s : State) (era : Nat) (stash : Nat) (acc : Perbill)
    (pair : Nat × Nat) : Perbill :=
  let commission := (s.erasValidatorPrefs era pair.1).commission
  let vexp := s.erasStakersClipped era pair.1
  match vexp.others.get? pair.2 with
  | none => acc
  | some ne =>
    if ne.who ≠ stash then acc
    else
      let nominatorExposurePart := Perbill.fromRational ne.value vexp.total
      let validatorPoint := ((s.erasRewardPoints era).individual pair.1).getD 0
      let validatorPointPart :=
        Perbill.fromRational validatorPoint (s.erasRewardPoints era).total
      acc.satAdd
        ((validatorPointPart.mul (Perbill.one.satSub commission)).mul
          nominatorExposurePart)

/-- `do_payout_nominator(who, era, validators)`.  Also returns the amount
handed to `make_payout`. -/
def doPayoutNominator (s : State) (who : Nat) (era : Nat)
    (validators : List (Nat × Nat)) : Except StakingError (State × Nat) :=
  if MAX_NOMINATIONS < validators.length then .error .InvalidNumberOfNominations
  else
    match s.erasValidatorReward era with
    | none => .error .InvalidEraToReward
    | some eraPayout =>
      match s.ledger who with
      | none => .error .NotController
      | some l =>
        if lastRewardBlocks l.last_reward era then .error .InvalidEraToReward
        else
          let l1 := { l with last_reward := some era }
          let s1 := { s with ledger := fupdate s.ledger who (some l1) }
          let reward := validators.foldl (nomPairAcc s1 era l1.stash) Perbill.zero
          let amount := reward.mulBalance eraPayout
          .ok (makePayout s1 l1.stash amount, amount)

/-! ## Era scheduling and election -/

/-- `is_validator_or_nominator_compliant(stash)`. -/
def isValidatorOrNominatorCompliant (s : State) (stash : Nat) : Bool :=
  match s.getIdentity stash with
  | some did => s.hasValidCdd did
  | none => false

/-- `refresh_compliance_statuses()`. -/
def refreshComplianceStatuses (s : State) : State :=
  { s with
    permissionedValidators := s.permissionedValidators.map (fun p =>
      (p.1, ⟨if isValidatorOrNominatorCompliant s p.1 then .Active else .Pending⟩)) }

/-- `is_validator_cdd_compliant(who)`. -/
def isValidatorCddCompliant (s : State) (who : Nat) : Bool :=
  match alookup s.permissionedValidators who with
  | some v => v.compliance = Compliance.Active
  | none => false

/-- `is_active_balance_above_min_bond(who)`. -/
def isActiveBalanceAboveMinBond (s : State) (who : Nat) : Bool :=
  match s.bonded who with
  | some c =>
    match s.ledger c with
    | some l => s.minimumBondThreshold ≤ l.active
    | none => false
  | none => false

/-- `slashable_balance_of(stash)`. -/
def slashableBalanceOf (s : State) (stash : Nat) : Nat :=
  match s.bonded stash with
  | some c =>
    match s.ledger c with
    | some l => l.active
    | none => 0
  | none => 0

/-- Modelled from the spec: `sp_phragmen::elect` is an external routine not
in this repository's sources.  The spec (§4.4) specifies its failure
condition — "fewer eligible validators than the minimum ⇒ no result" — and
the source passes `minimum_validator_count().max(1)` as that minimum.  The
winner computation is abstracted: up to `validator_count` candidates are
selected, each backed by its self-vote alone ("every winner gets at least its
self-vote"). -/
def electModel (validatorCount minimumCandidateCount : Nat)
    (candidates : List Nat) (stakeOf : Nat → Nat) :
    Option (List (Nat × Nat)) :=
  if candidates.length < minimumCandidateCount then none
  else some ((candidates.take validatorCount).map (fun c => (c, stakeOf c)))

/-- The eligibility filter at the top of `select_validators`: registered
validators that hold at least the minimum bond and have `Active`
compliance. -/
def eligibleValidatorsOf (s : State) : List (Nat × ValidatorPrefs) :=
  s.validators.filter (fun p =>
    isActiveBalanceAboveMinBond s p.1 && isValidatorCddCompliant s p.1)

/-- Store a winner's exposure (full and clipped) for the era. -/
def writeExposure (era : Nat) (st : State) (w : Nat × Nat) : State :=
  let exposure : Exposure := ⟨w.2, w.2, []⟩
  { st with
    erasStakers := dupdate st.erasStakers era w.1 exposure
    erasStakersClipped := dupdate st.erasStakersClipped era w.1 exposure }

/-- Snapshot a winner's validator preferences for the era. -/
def writePref (vals : List (Nat × ValidatorPrefs)) (era : Nat) (st : State)
    (w : Nat × Nat) : State :=
  let pref := (alookup vals w.1).getD ⟨Perbill.zero⟩
  { st with erasValidatorPrefs := dupdate st.erasValidatorPrefs era w.1 pref }

/-- Store the election outcome: every winner's exposure, the era's total
stake, and each winner's preference snapshot. -/
def applyElection (s : State) (era : Nat) (winners : List (Nat × Nat)) : State :=
  let s2 := winners.foldl (writeExposure era) s
  let s3 := { s2 with
    erasTotalStake := fupdate s2.erasTotalStake era (winners.map (·.2)).sum }
  winners.foldl (writePref s.validators era) s3

/-- `select_validators(current_era)` — refresh compliance, collect the
eligible validators (minimum bond and Active compliance), run the election,
and on success store exposures, prefs and total stake for the era.  Returns
the possibly-updated state and the optional new validator set. -/
def selectValidators (s0 : State) (currentEra : Nat) :
    State × Option (List Nat) :=
  match electModel (refreshComplianceStatuses s0).validatorCount
      (max (refreshComplianceStatuses s0).minimumValidatorCount 1)
      ((eligibleValidatorsOf (refreshComplianceStatuses s0)).map (·.1))
      (slashableBalanceOf (refreshComplianceStatuses s0)) with
  | none => (refreshComplianceStatuses s0, none)
  | some winners =>
    (applyElection (refreshComplianceStatuses s0) currentEra winners,
     some (winners.map (·.1)))

/-- `clear_era_information(era_index)`. -/
def clearEraInformation (s : State) (era : Nat) : State :=
  { s with
    erasStakers := fun e => if e = era then fun _ => ⟨0, 0, []⟩ else s.erasStakers e
    erasStakersClipped :=
      fun e => if e = era then fun _ => ⟨0, 0, []⟩ else s.erasStakersClipped e
    erasValidatorPrefs :=
      fun e => if e = era then fun _ => ⟨Perbill.zero⟩ else s.erasValidatorPrefs e
    erasValidatorReward := fupdate s.erasValidatorReward era none
    erasRewardPoints :=
      fun e => if e = era then ⟨0, fun _ => none⟩ else s.erasRewardPoints e
    erasTotalStake := fupdate s.erasTotalStake era 0
    erasStartSessionIndex := fupdate s.erasStartSessionIndex era none }

/-- `new_era(start_session_index)` — increment (or initialise) the current
era, record its starting session index, prune information older than
`history_depth`, and run the election. -/
def newEra (s : State) (startSessionIndex : Nat) :
    State × Option (List Nat) :=
  let currentEra := match s.currentEra with
    | some e => e + 1
    | none => 0
  let s1 := { s with
    currentEra := some currentEra
    erasStartSessionIndex :=
      fupdate s.erasStartSessionIndex currentEra (some startSessionIndex) }
  let s2 :=
    if s1.historyDepth + 1 ≤ currentEra then
      clearEraInformation s1 (currentEra - (s1.historyDepth + 1))
    else s1
  selectValidators s2 currentEra

/-- `new_session(session_index)` — decide through the forcing policy whether
to plan a new era; with no initial era set, plan it unconditionally. -/
def newSession (cfg : Config) (s : State) (sessionIndex : Nat) :
    State × Option (List Nat) :=
  match s.currentEra with
  | some currentEra =>
    let start := (s.erasStartSessionIndex currentEra).getD 0
    let eraLength := sessionIndex - start
    match s.forceEra with
    | .ForceNew => newEra { s with forceEra := .NotForcing } sessionIndex
    | .ForceAlways => newEra s sessionIndex
    | .NotForcing =>
      if cfg.sessionsPerEra ≤ eraLength then newEra s sessionIndex else (s, none)
    | .ForceNone => (s, none)
  | none => newEra s sessionIndex

/-! ## Spec-side definitions (for refinement claims) -/

/-- The spec's validator reward formula (§4.5), written from its words:
"Reward = `point_share × (commission + (1−commission) × own/total) ×
era_payout`", read with the spec's stated numeric semantics (saturating
fractions, truncating multiplication). -/
def specValidatorReward (pointShare commission : Perbill) (own total eraPayout : Nat) :
    Nat :=
  (pointShare.mul
      (commission.satAdd
        ((Perbill.one.satSub commission).mul (Perbill.fromRational own total)))).mulBalance
    eraPayout

/-- A storage state with every map empty, used as the base of the concrete
states below. -/
def emptyState : State where
  bonded := fun _ => none
  ledger := fun _ => none
  payee := fun _ => none
  validators := []
  nominators := []
  permissionedValidators := []
  stakingLock := fun _ => none
  freeBalance := fun _ => 0
  currentEra := none
  erasStartSessionIndex := fun _ => none
  erasValidatorReward := fun _ => none
  erasRewardPoints := fun _ => ⟨0, fun _ => none⟩
  erasValidatorPrefs := fun _ _ => ⟨Perbill.zero⟩
  erasStakers := fun _ _ => ⟨0, 0, []⟩
  erasStakersClipped := fun _ _ => ⟨0, 0, []⟩
  erasTotalStake := fun _ => 0
  forceEra := .NotForcing
  validatorCount := 2
  minimumValidatorCount := 4
  minimumBondThreshold := 0
  historyDepth := 84
  getIdentity := fun _ => none
  hasValidCdd := fun _ => false
  hasValidCddWithLeeway := fun _ => false

/-! ## Lemmas about the pure ledger operations -/

lemma chunkSum_nil : chunkSum [] = 0 := rfl

lemma chunkSum_cons (c : UnlockChunk) (l : List UnlockChunk) :
    chunkSum (c :: l) = c.value + chunkSum l := by
  simp [chunkSum]

lemma chunkSum_append (l₁ l₂ : List UnlockChunk) :
    chunkSum (l₁ ++ l₂) = chunkSum l₁ + chunkSum l₂ := by
  simp [chunkSum]

lemma chunkSum_reverse (l : List UnlockChunk) : chunkSum l.reverse = chunkSum l := by
  simp [chunkSum, List.map_reverse, List.sum_reverse]

lemma slashOutOf_total (mb total target value R : Nat) (h : total = target + R) :
    (slashOutOf mb total target value).1 = (slashOutOf mb total target value).2.1 + R ∧
      (slashOutOf mb total target value).2.1 ≤ target := by
  simp only [slashOutOf, min_def]
  split_ifs <;> constructor <;> simp <;> omega

lemma slashChunks_total (mb : Nat) (chunks : List UnlockChunk) :
    ∀ (total value R : Nat), total = R + chunkSum chunks →
      (slashChunks mb chunks total value).2.1 =
        R + chunkSum (slashChunks mb chunks total value).1 := by
  induction chunks with
  | nil => intro total value R h; simpa [slashChunks, chunkSum_nil] using h
  | cons c rest ih =>
    intro total value R h
    rw [chunkSum_cons] at h
    have hx := slashOutOf_total mb total c.value value (R + chunkSum rest) (by omega)
    by_cases hz : (slashOutOf mb total c.value value).2.1 = 0
    · simp only [slashChunks, hz, if_pos]
      exact ih _ _ R (by omega)
    · simp only [slashChunks, if_neg hz]
      rw [chunkSum_cons]
      simp
      omega

lemma foldl_sub_chunkSum (ds : List UnlockChunk) :
    ∀ (t : Nat), ds.foldl (fun a c => a - c.value) t = t - chunkSum ds := by
  induction ds with
  | nil => intro t; simp [chunkSum_nil]
  | cons c rest ih =>
    intro t
    rw [List.foldl_cons, ih, chunkSum_cons]
    omega

lemma chunkSum_filter (p : UnlockChunk → Bool) (l : List UnlockChunk) :
    chunkSum (l.filter p) + chunkSum (l.filter (fun c => !(p c))) = chunkSum l := by
  induction l with
  | nil => simp [chunkSum_nil]
  | cons c rest ih =>
    by_cases hp : p c <;>
      simp only [List.filter_cons, hp, Bool.not_true, Bool.not_false, if_pos, if_neg,
        ite_true, ite_false, Bool.false_eq_true, not_false_iff, chunkSum_cons] <;>
      omega

lemma rebondAux_sum (value : Nat) (l : List UnlockChunk) :
    ∀ (ub : Nat),
      chunkSum (rebondAux value l ub).1 + (rebondAux value l ub).2 =
        chunkSum l + ub := by
  induction l with
  | nil => intro ub; simp [rebondAux, chunkSum_nil]
  | cons c rest ih =>
    intro ub
    by_cases h1 : ub + c.value ≤ value
    · by_cases h2 : value ≤ ub + c.value
      · simp only [rebondAux, if_pos h1, if_pos h2, chunkSum_cons]
        omega
      · simp only [rebondAux, if_pos h1, if_neg h2, chunkSum_cons]
        rw [ih (ub + c.value)]
        omega
    · simp only [rebondAux, if_neg h1, chunkSum_cons]
      omega

/-! ## C1 — the ledger invariant -/

/-- **C1**: every ledger produced by the balance-affecting operations
satisfies `total == active + Σ(unlocking.value)`.  One conjunct per
operation: the fresh ledger created by `bond`; the ledger updates of
`bond_extra`, `unbond_balance` (hence `unbond` and the forced CDD-expiry
unbonding), `rebond`, `consolidate_unlocked` (hence `withdraw_unbonded`),
`StakingLedger::slash`, and the restaking update of a reward payout with the
`Staked` destination. -/
theorem ledger_invariant_preserved
    (l : StakingLedger) (stash : Nat) (lr : Option Nat)
    (v extra value mb e era amt : Nat)
    (h : l.wf) :
    (StakingLedger.mk stash v v [] lr).wf
    ∧ (bondExtraLedger l extra).wf
    ∧ (unbondBalanceLedger mb era l value).wf
    ∧ (l.rebond value).wf
    ∧ (l.consolidate_unlocked e).wf
    ∧ ((l.slash value mb).1).wf
    ∧ ({ l with total := l.total + amt, active := l.active + amt } : StakingLedger).wf := by
  unfold StakingLedger.wf at h
  refine ⟨?_, ?_, ?_, ?_, ?_, ?_, ?_⟩
  · simp [StakingLedger.wf, chunkSum_nil]
  · unfold StakingLedger.wf bondExtraLedger
    simp
    omega
  · unfold StakingLedger.wf unbondBalanceLedger
    simp only [min_def]
    split_ifs <;> simp [chunkSum_append, chunkSum_cons, chunkSum_nil] <;> omega
  · have hr := rebondAux_sum value l.unlocking.reverse 0
    rw [chunkSum_reverse] at hr
    unfold StakingLedger.wf StakingLedger.rebond
    simp only [chunkSum_reverse]
    omega
  · unfold StakingLedger.wf StakingLedger.consolidate_unlocked
    have hp := chunkSum_filter (fun c => decide (e < c.era)) l.unlocking
    simp only [foldl_sub_chunkSum]
    omega
  · have hx := slashOutOf_total mb l.total l.active value (chunkSum l.unlocking) h
    have hc := slashChunks_total mb l.unlocking
      (slashOutOf mb l.total l.active value).1
      (slashOutOf mb l.total l.active value).2.2
      (slashOutOf mb l.total l.active value).2.1 hx.1
    unfold StakingLedger.wf StakingLedger.slash
    simpa using hc
  · unfold StakingLedger.wf
    simp
    omega

/-- Witness for C1 at a concrete well-formed ledger. -/
theorem ledger_invariant_preserved_witness :
    (⟨7, 100, 40, [⟨60, 5⟩], none⟩ : StakingLedger).wf ∧
      ((⟨7, 100, 40, [⟨60, 5⟩], none⟩ : StakingLedger).slash 75 10).1.wf :=
  ⟨by decide,
   (ledger_invariant_preserved ⟨7, 100, 40, [⟨60, 5⟩], none⟩ 1 none 5 5 75 10 2 3 4
      (by decide)).2.2.2.2.2.1⟩

/-! ## C10 — re-pairing the current controller -/

/-- **C10**: for a bonded stash whose ledger exists under its current
controller, `set_controller(stash, c)` with `c` the currently paired
controller fails with `AlreadyPaired` rather than succeeding as a no-op,
because the check rejects any target account that already keys a ledger. -/
theorem setController_current_controller_fails
    (s : State) (stash c : Nat) (l : StakingLedger)
    (hb : s.bonded stash = some c) (hl : s.ledger c = some l) :
    setController s stash c = .error .AlreadyPaired := by
  simp [setController, hb, hl]

/-- Witness for C10 at a concrete paired state. -/
theorem setController_current_controller_fails_witness :
    setController
      { emptyState with
        bonded := fupdate emptyState.bonded 2 (some 1)
        ledger := fupdate emptyState.ledger 1 (some ⟨2, 50, 50, [], none⟩) }
      2 1 = .error .AlreadyPaired :=
  setController_current_controller_fails _ 2 1 ⟨2, 50, 50, [], none⟩ rfl rfl

/-! ## C7 — unbond -/

/-- Concrete configuration used by the unbond scenarios: 6 sessions per era,
bonding duration 7 eras, minimum balance 10. -/
def cfg7 : Config := ⟨6, 7, 10, 64⟩

/-- Concrete state: stash 2 paired with controller 1, ledger fully active
at 100, current era 5. -/
def c7State : State :=
  { emptyState with
    bonded := fupdate emptyState.bonded 2 (some 1)
    ledger := fupdate emptyState.ledger 1 (some ⟨2, 100, 100, [], none⟩)
    currentEra := some 5 }

/-- **C7 counterexample**: the claim says a non-failing `unbond` always moves
`min(value, active)` "into one new chunk"; with `value = 0` the call succeeds
but pushes no chunk at all (the ledger is returned untouched), so the
unlocking queue has 0 entries where the claim requires 1. -/
theorem unbond_zero_value_pushes_no_chunk :
    (unbond cfg7 c7State 1 0).map (fun st => (st.ledger 1).map (·.unlocking.length)) =
        .ok (some 0) ∧
      (unbond cfg7 c7State 1 0).map (fun st => (st.ledger 1).map (·.unlocking.length)) ≠
        .ok (some 1) := by
  have h0 : (unbond cfg7 c7State 1 0).map
      (fun st => (st.ledger 1).map (·.unlocking.length)) = .ok (some 0) := rfl
  refine ⟨h0, ?_⟩
  rw [h0]
  simp

/-- Case split of `unbond` once the controller's ledger is known. -/
lemma unbond_of_ledger (cfg : Config) (s : State) (controller value : Nat)
    (l : StakingLedger) (hl : s.ledger controller = some l) :
    unbond cfg s controller value =
      if l.unlocking.length < MAX_UNLOCKING_CHUNKS then
        .ok (unbondBalance cfg s controller l value)
      else .error .NoMoreChunks := by
  unfold unbond
  rw [hl]

/-- **C7 (amended)**: for a paired controller, `unbond` fails (with
`NoMoreChunks`) exactly when the unlocking queue already holds
`MAX_UNLOCKING_CHUNKS = 32` entries; otherwise it succeeds, and — when
`min(value, active)` is positive — moves it out of `active` into one new
chunk maturing at `current_era + BondingDuration`, absorbing the whole
remaining active balance into that chunk when it would drop below the
currency minimum; when `min(value, active)` is zero the call succeeds and
leaves the ledger unchanged.  After any successful unbond the queue has at
most 32 entries, and `total` is unchanged. -/
theorem unbond_behaviour
    (cfg : Config) (s : State) (controller value : Nat) (l : StakingLedger)
    (hl : s.ledger controller = some l) :
    (unbond cfg s controller value = .error .NoMoreChunks ↔
      MAX_UNLOCKING_CHUNKS ≤ l.unlocking.length)
    ∧ (∀ l', (unbond cfg s controller value).map (fun st => st.ledger controller) =
          .ok (some l') →
        l'.unlocking.length ≤ MAX_UNLOCKING_CHUNKS
        ∧ l'.total = l.total
        ∧ (0 < min value l.active →
            (if l.active - min value l.active < cfg.minimumBalance then
              l'.active = 0
              ∧ l'.unlocking = l.unlocking ++
                  [⟨min value l.active + (l.active - min value l.active),
                    s.currentEra.getD 0 + cfg.bondingDuration⟩]
            else
              l'.active = l.active - min value l.active
              ∧ l'.unlocking = l.unlocking ++
                  [⟨min value l.active, s.currentEra.getD 0 + cfg.bondingDuration⟩]))
        ∧ (min value l.active = 0 → l' = l)) := by
  rw [unbond_of_ledger cfg s controller value l hl]
  by_cases hlen : l.unlocking.length < MAX_UNLOCKING_CHUNKS
  · rw [if_pos hlen]
    constructor
    · constructor
      · intro hc; exact absurd hc (by simp)
      · intro hc; omega
    · intro l' heq
      unfold unbondBalance at heq
      by_cases hmin : min value l.active = 0
      · rw [if_pos hmin] at heq
        simp only [Except.map, hl] at heq
        have hll : l = l' := by
          have := Except.ok.inj heq
          exact Option.some.inj this
        subst hll
        refine ⟨by omega, rfl, by omega, fun _ => rfl⟩
      · rw [if_neg hmin] at heq
        simp only [Except.map, updateLedger, fupdate] at heq
        have hl' : l' = unbondBalanceLedger cfg.minimumBalance
            (s.currentEra.getD 0 + cfg.bondingDuration) l value := by
          have := Except.ok.inj heq
          simp at this
          exact this.symm
        subst hl'
        unfold unbondBalanceLedger
        by_cases hdust : l.active - min value l.active < cfg.minimumBalance
        · rw [if_pos hdust]
          refine ⟨?_, rfl, fun _ => ?_, fun hc => absurd hc hmin⟩
          · simp [List.length_append]; omega
          · rw [if_pos hdust]; exact ⟨rfl, rfl⟩
        · rw [if_neg hdust]
          refine ⟨?_, rfl, fun _ => ?_, fun hc => absurd hc hmin⟩
          · simp [List.length_append]; omega
          · rw [if_neg hdust]; exact ⟨rfl, rfl⟩
  · rw [if_neg hlen]
    refine ⟨⟨fun _ => by omega, fun _ => rfl⟩, ?_⟩
    intro l' heq
    exact absurd heq (by simp [Except.map])

/-- Witness for C7 at a concrete ledger: unbonding 30 of 100 active does not
hit the `NoMoreChunks` error. -/
theorem unbond_behaviour_witness :
    ¬ (unbond cfg7 c7State 1 30 = .error .NoMoreChunks) := by
  intro hc
  have h := (unbond_behaviour cfg7 c7State 1 30 ⟨2, 100, 100, [], none⟩ rfl).1
  have := h.mp hc
  simp [MAX_UNLOCKING_CHUNKS] at this

/-! ## C8 — withdraw_unbonded -/

lemma alookup_aremove {β : Type} (l : List (Nat × β)) (k : Nat) :
    alookup (aremove l k) k = none := by
  induction l with
  | nil => rfl
  | cons p rest ih =>
    by_cases hp : p.1 = k
    · simp [aremove, List.filter_cons, hp] at ih ⊢
      exact ih
    · simp [aremove, alookup, List.filter_cons, List.find?, hp, ih]

/-- Case split of `withdraw_unbonded` once the ledger and current era are
known. -/
lemma withdrawUnbonded_of_ledger (s : State) (controller e : Nat)
    (l0 : StakingLedger) (hl : s.ledger controller = some l0)
    (he : s.currentEra = some e) :
    withdrawUnbonded s controller =
      (let l := l0.consolidate_unlocked e
       if l.unlocking.isEmpty && l.active == 0 then
         match killStash s l.stash with
         | .error err => .error err
         | .ok s1 => .ok { s1 with stakingLock := fupdate s1.stakingLock l.stash none }
       else .ok (updateLedger s controller l)) := by
  unfold withdrawUnbonded
  rw [hl, he]

/-- **C8**: `withdraw_unbonded` by a paired controller drops every chunk
maturing at or before the current era, removing its value from `total`; if
the resulting ledger has no unlocking chunks and zero active stake, every
staking record of the stash (bonded pairing, ledger, payee, validator and
nominator entries) is deleted and the stash's balance lock is removed;
otherwise the reduced ledger is persisted. -/
theorem withdrawUnbonded_behaviour
    (s : State) (controller e : Nat) (l : StakingLedger)
    (hl : s.ledger controller = some l)
    (hb : s.bonded l.stash = some controller)
    (he : s.currentEra = some e) :
    (l.unlocking.filter (fun c => decide (e < c.era)) = [] ∧ l.active = 0 →
      (withdrawUnbonded s controller).map (fun st =>
        (st.bonded l.stash, st.ledger controller, st.payee l.stash,
         alookup st.validators l.stash, alookup st.nominators l.stash,
         st.stakingLock l.stash)) =
        .ok (none, none, none, none, none, none))
    ∧ (¬ (l.unlocking.filter (fun c => decide (e < c.era)) = [] ∧ l.active = 0) →
      (withdrawUnbonded s controller).map (fun st => st.ledger controller) =
        .ok (some ⟨l.stash,
          l.total - chunkSum (l.unlocking.filter (fun c => !(decide (e < c.era)))),
          l.active,
          l.unlocking.filter (fun c => decide (e < c.era)),
          l.last_reward⟩)) := by
  rw [withdrawUnbonded_of_ledger s controller e l hl he]
  unfold StakingLedger.consolidate_unlocked
  constructor
  · rintro ⟨hk, ha⟩
    simp only [hk, ha, List.isEmpty_nil, Bool.true_and, beq_self_eq_true]
    unfold killStash
    rw [hb]
    simp [Except.map, fupdate, alookup_aremove]
  · intro hne
    have hcond : ((l.unlocking.filter (fun c => decide (e < c.era))).isEmpty
        && l.active == 0) = false := by
      rcases not_and_or.mp hne with h | h
      · simp [List.isEmpty_iff, h]
      · simp [h]
    simp only [hcond, Bool.false_eq_true, if_neg, ite_false]
    simp [updateLedger, fupdate, foldl_sub_chunkSum, Except.map]

/-- Concrete state for the C8 witness: stash 2 (controller 1) has one fully
matured chunk and no active stake, plus payee, validator, nominator and lock
records that must all be deleted. -/
def c8State : State :=
  { emptyState with
    bonded := fupdate emptyState.bonded 2 (some 1)
    ledger := fupdate emptyState.ledger 1 (some ⟨2, 100, 0, [⟨100, 3⟩], none⟩)
    payee := fupdate emptyState.payee 2 (some .Stash)
    validators := [(2, ⟨Perbill.fromPercent 3⟩)]
    nominators := [(2, ⟨[5], 0, false⟩)]
    stakingLock := fupdate emptyState.stakingLock 2 (some 100)
    currentEra := some 5 }

/-- Witness for C8: the round-trip deletion at `c8State`. -/
theorem withdrawUnbonded_behaviour_witness :
    (withdrawUnbonded c8State 1).map (fun st =>
      (st.bonded 2, st.ledger 1, st.payee 2, alookup st.validators 2,
       alookup st.nominators 2, st.stakingLock 2)) =
      .ok (none, none, none, none, none, none) := by
  have h := (withdrawUnbonded_behaviour c8State 1 5 ⟨2, 100, 0, [⟨100, 3⟩], none⟩
    rfl rfl rfl).1
  exact h (by decide)

/-! ## C6 — nominate -/

lemma alookup_ainsert {β : Type} (l : List (Nat × β)) (k : Nat) (v : β) :
    alookup (ainsert l k v) k = some v := by
  induction l with
  | nil => simp [ainsert, aremove, alookup]
  | cons p rest ih =>
    by_cases hp : p.1 = k
    · simp [ainsert, aremove, List.filter_cons, hp] at ih ⊢
      exact ih
    · simp [ainsert, aremove, alookup, List.filter_cons, List.find?, hp, ih]

/-- Case split of `nominate` once the controller's ledger is known. -/
lemma nominate_of_ledger (s : State) (controller : Nat) (targets : List Nat)
    (l : StakingLedger) (hl : s.ledger controller = some l) :
    nominate s controller targets =
      (if targets.isEmpty then .error .EmptyTargets
       else
        match s.getIdentity l.stash with
        | none => .ok s
        | some nominateIdentity =>
          if s.hasValidCddWithLeeway nominateIdentity then
            .ok { s with
              validators := aremove s.validators l.stash
              nominators := ainsert s.nominators l.stash
                ⟨targets.take MAX_NOMINATIONS, s.currentEra.getD 0, false⟩ }
          else .ok s) := by
  unfold nominate
  rw [hl]

/-- Concrete state for C6: stash 2 (controller 1) is a registered validator
with identity 9 whose CDD credential passes the lookahead check. -/
def c6State : State :=
  { emptyState with
    bonded := fupdate emptyState.bonded 2 (some 1)
    ledger := fupdate emptyState.ledger 1 (some ⟨2, 100, 100, [], none⟩)
    validators := [(2, ⟨Perbill.fromPercent 5⟩)]
    getIdentity := fun a => if a = 2 then some 9 else none
    hasValidCddWithLeeway := fun _ => true
    currentEra := some 4 }

/-- **C6 counterexample**: `nominate` with 17 targets does not fail with a
too-many-nominations error — it succeeds and records only the first 16
targets (`take(MAX_NOMINATIONS)` silently truncates). -/
theorem nominate_over_16_succeeds_truncated :
    (nominate c6State 1 (List.range 17)).map
      (fun st => (alookup st.nominators 2).map (·.targets)) =
      .ok (some (List.range 16)) := by
  rfl

/-- **C6 (amended)**: for a paired controller, `nominate` fails (with
`EmptyTargets`) only when the target list is empty.  Otherwise: with a stash
identity whose CDD credential covers the bonding-duration lookahead, the
first 16 targets are recorded (longer lists are silently truncated) and any
prior validation of the stash is cleared; with no identity, or a credential
failing the lookahead, the call succeeds as a silent no-op, changing no
nominator or validator entry. -/
theorem nominate_behaviour
    (s : State) (controller : Nat) (l : StakingLedger) (targets : List Nat)
    (hl : s.ledger controller = some l) :
    (targets = [] → nominate s controller targets = .error .EmptyTargets)
    ∧ (targets ≠ [] →
        (∀ did, s.getIdentity l.stash = some did → s.hasValidCddWithLeeway did = true →
          (nominate s controller targets).map (fun st =>
            (alookup st.nominators l.stash, alookup st.validators l.stash)) =
            .ok (some ⟨targets.take MAX_NOMINATIONS, s.currentEra.getD 0, false⟩, none))
        ∧ (s.getIdentity l.stash = none → nominate s controller targets = .ok s)
        ∧ (∀ did, s.getIdentity l.stash = some did →
            s.hasValidCddWithLeeway did = false →
            nominate s controller targets = .ok s)) := by
  rw [nominate_of_ledger s controller targets l hl]
  constructor
  · intro he
    simp [he]
  · intro hne
    have hnem : targets.isEmpty = false := by
      simpa [List.isEmpty_iff] using hne
    refine ⟨?_, ?_, ?_⟩
    · intro did hdid hcdd
      simp [hnem, hdid, hcdd, Except.map, alookup_ainsert, alookup_aremove]
    · intro hdid
      simp [hnem, hdid]
    · intro did hdid hcdd
      simp [hnem, hdid, hcdd]

/-- Witness for C6: a compliant nominate at `c6State` records the targets
and clears the stash's validator entry. -/
theorem nominate_behaviour_witness :
    (nominate c6State 1 [3]).map (fun st =>
      (alookup st.nominators 2, alookup st.validators 2)) =
      .ok (some ⟨[3], 4, false⟩, none) := by
  have h := ((nominate_behaviour c6State 1 ⟨2, 100, 100, [], none⟩ [3] rfl).2
    (by simp)).1 9 rfl rfl
  exact h

/-! ## C2 — the invalid-era rule and last_reward monotonicity -/

lemma makePayout_erasValidatorReward (s : State) (stash amount : Nat) :
    (makePayout s stash amount).erasValidatorReward = s.erasValidatorReward := by
  unfold makePayout
  split
  · split <;> rfl
  · rfl
  · split
    · split
      · simp [updateLedger]
      · rfl
    · rfl

lemma makePayout_last_reward (s : State) (stash amount who : Nat) (l : StakingLedger)
    (hw : s.ledger who = some l) :
    ((makePayout s stash amount).ledger who).map (·.last_reward) =
      some l.last_reward := by
  unfold makePayout
  cases hpd : (s.payee stash).getD RewardDestination.Staked with
  | Staked =>
    cases hbd : s.bonded stash with
    | none => simp [hw]
    | some c =>
      cases hlc : s.ledger c with
      | none => simp [hlc, hw]
      | some lc =>
        by_cases hwc : who = c
        · subst hwc
          rw [hw] at hlc
          have hlcl : lc = l := (Option.some.inj hlc).symm
          subst hlcl
          simp [hw, updateLedger, fupdate]
        · simp [hlc, updateLedger, fupdate, hwc, hw]
  | Stash => simp [hw]
  | Controller =>
    cases hbd : s.bonded stash with
    | none => simp [hw]
    | some c => simp [hw]

lemma doPayoutValidator_of_some (s : State) (who era payout : Nat) (l : StakingLedger)
    (hp : s.erasValidatorReward era = some payout) (hl : s.ledger who = some l) :
    doPayoutValidator s who era =
      (if lastRewardBlocks l.last_reward era then .error .InvalidEraToReward
       else
        let l1 := { l with last_reward := some era }
        let s1 := { s with ledger := fupdate s.ledger who (some l1) }
        let amount := validatorRewardAmount s1 era l1.stash payout
        .ok (makePayout s1 l1.stash amount, amount)) := by
  unfold doPayoutValidator
  rw [hp, hl]

lemma doPayoutValidator_of_none (s : State) (who era : Nat)
    (hp : s.erasValidatorReward era = none) :
    doPayoutValidator s who era = .error .InvalidEraToReward := by
  unfold doPayoutValidator
  rw [hp]

lemma doPayoutNominator_of_some (s : State) (who era payout : Nat) (l : StakingLedger)
    (vs : List (Nat × Nat)) (hlen : vs.length ≤ MAX_NOMINATIONS)
    (hp : s.erasValidatorReward era = some payout) (hl : s.ledger who = some l) :
    doPayoutNominator s who era vs =
      (if lastRewardBlocks l.last_reward era then .error .InvalidEraToReward
       else
        let l1 := { l with last_reward := some era }
        let s1 := { s with ledger := fupdate s.ledger who (some l1) }
        let reward := vs.foldl (nomPairAcc s1 era l1.stash) Perbill.zero
        let amount := reward.mulBalance payout
        .ok (makePayout s1 l1.stash amount, amount)) := by
  unfold doPayoutNominator
  rw [if_neg (by omega), hp, hl]

lemma doPayoutNominator_of_none (s : State) (who era : Nat)
    (vs : List (Nat × Nat)) (hlen : vs.length ≤ MAX_NOMINATIONS)
    (hp : s.erasValidatorReward era = none) :
    doPayoutNominator s who era vs = .error .InvalidEraToReward := by
  unfold doPayoutNominator
  rw [if_neg (by omega), hp]

lemma lastRewardBlocks_iff (lr : Option Nat) (era : Nat) :
    lastRewardBlocks lr era = true ↔ ∃ x, lr = some x ∧ era ≤ x := by
  cases lr <;> simp [lastRewardBlocks]

/-- **C2**: for a paired controller's ledger, `payout_validator` (and
`payout_nominator` with an admissible list length) fails with
`InvalidEraToReward` exactly when the era has no recorded payout or
`last_reward ≥ era`; a successful claim sets `last_reward` to the claimed
era, which strictly exceeds the previous `last_reward`, so `last_reward` is
non-decreasing across successful claims and any later claim for an era at or
below the one just claimed fails with the same error. -/
theorem payout_invalid_era_rule
    (s : State) (who era : Nat) (l : StakingLedger)
    (hl : s.ledger who = some l) :
    (doPayoutValidator s who era = .error .InvalidEraToReward ↔
      (s.erasValidatorReward era = none ∨ ∃ lr, l.last_reward = some lr ∧ era ≤ lr))
    ∧ (∀ vs : List (Nat × Nat), vs.length ≤ MAX_NOMINATIONS →
        (doPayoutNominator s who era vs = .error .InvalidEraToReward ↔
          (s.erasValidatorReward era = none ∨ ∃ lr, l.last_reward = some lr ∧ era ≤ lr)))
    ∧ (∀ r, doPayoutValidator s who era = .ok r →
        ((r.1.ledger who).map (·.last_reward) = some (some era)
          ∧ ∀ lr, l.last_reward = some lr → lr < era))
    ∧ (∀ r era2, doPayoutValidator s who era = .ok r → era2 ≤ era →
        doPayoutValidator r.1 who era2 = .error .InvalidEraToReward) := by
  rcases hp : s.erasValidatorReward era with _ | payout
  · refine ⟨?_, ?_, ?_, ?_⟩
    · simp [doPayoutValidator_of_none s who era hp, hp]
    · intro vs hlen
      simp [doPayoutNominator_of_none s who era vs hlen hp, hp]
    · intro r hr
      rw [doPayoutValidator_of_none s who era hp] at hr
      exact absurd hr (by simp)
    · intro r era2 hr
      rw [doPayoutValidator_of_none s who era hp] at hr
      exact absurd hr (by simp)
  · have hv := doPayoutValidator_of_some s who era payout l hp hl
    by_cases hb : lastRewardBlocks l.last_reward era = true
    · rw [if_pos hb] at hv
      refine ⟨?_, ?_, ?_, ?_⟩
      · simp only [hv, hp]
        rw [lastRewardBlocks_iff] at hb
        simp [hb]
      · intro vs hlen
        rw [doPayoutNominator_of_some s who era payout l vs hlen hp hl, if_pos hb]
        simp only [hp]
        rw [lastRewardBlocks_iff] at hb
        simp [hb]
      · intro r hr
        rw [hv] at hr
        exact absurd hr (by simp)
      · intro r era2 hr _
        rw [hv] at hr
        exact absurd hr (by simp)
    · rw [if_neg (by simpa using hb)] at hv
      have hbf : lastRewardBlocks l.last_reward era = false := by simpa using hb
      refine ⟨?_, ?_, ?_, ?_⟩
      · rw [hv]
        constructor
        · intro hc; exact absurd hc (by simp)
        · intro hc
          rcases hc with hc | ⟨lr, hlr, hle⟩
          · simp [hp] at hc
          · exfalso
            have : lastRewardBlocks l.last_reward era = true :=
              (lastRewardBlocks_iff l.last_reward era).mpr ⟨lr, hlr, hle⟩
            rw [this] at hbf; exact absurd hbf (by simp)
      · intro vs hlen
        rw [doPayoutNominator_of_some s who era payout l vs hlen hp hl,
          if_neg (by simp [hbf])]
        constructor
        · intro hc; exact absurd hc (by simp)
        · intro hc
          rcases hc with hc | ⟨lr, hlr, hle⟩
          · simp [hp] at hc
          · exfalso
            have : lastRewardBlocks l.last_reward era = true :=
              (lastRewardBlocks_iff l.last_reward era).mpr ⟨lr, hlr, hle⟩
            rw [this] at hbf; exact absurd hbf (by simp)
      · intro r hr
        rw [hv] at hr
        have hr1 : r.1 = makePayout
            { s with ledger := fupdate s.ledger who (some { l with last_reward := some era }) }
            l.stash
            (validatorRewardAmount
              { s with ledger := fupdate s.ledger who (some { l with last_reward := some era }) }
              era l.stash payout) := by
          have := Except.ok.inj hr
          rw [← this]
        constructor
        · rw [hr1]
          rw [makePayout_last_reward _ _ _ who { l with last_reward := some era }
            (by simp [fupdate])]
        · intro lr hlr
          cases hble : lastRewardBlocks l.last_reward era with
          | true => rw [hble] at hbf; exact absurd hbf (by simp)
          | false =>
            unfold lastRewardBlocks at hble
            rw [hlr] at hble
            simp at hble
            omega
      · intro r era2 hr hle
        rw [hv] at hr
        have hr1 : r.1 = makePayout
            { s with ledger := fupdate s.ledger who (some { l with last_reward := some era }) }
            l.stash
            (validatorRewardAmount
              { s with ledger := fupdate s.ledger who (some { l with last_reward := some era }) }
              era l.stash payout) := by
          have := Except.ok.inj hr
          rw [← this]
        have hlw : (r.1.ledger who).map (·.last_reward) = some (some era) := by
          rw [hr1]
          rw [makePayout_last_reward _ _ _ who { l with last_reward := some era }
            (by simp [fupdate])]
        rcases hlw2 : r.1.ledger who with _ | l2
        · rw [hlw2] at hlw; exact absurd hlw (by simp)
        · rw [hlw2] at hlw
          have hl2 : l2.last_reward = some era := by
            simpa using hlw
          rcases hp2 : r.1.erasValidatorReward era2 with _ | payout2
          · exact doPayoutValidator_of_none r.1 who era2 hp2
          · rw [doPayoutValidator_of_some r.1 who era2 payout2 l2 hp2 hlw2]
            rw [if_pos (by unfold lastRewardBlocks; rw [hl2]; simpa using hle)]

/-- Witness for C2 at the concrete Scenario-B state (ledger exists, era 0 has
a recorded payout of 1000, `last_reward` unset): claiming era 0 is not an
invalid-era failure. -/
theorem payout_invalid_era_rule_witness :
    ¬ (doPayoutValidator
        { emptyState with
          bonded := fupdate emptyState.bonded 2 (some 1)
          ledger := fupdate emptyState.ledger 1 (some ⟨2, 100, 100, [], none⟩)
          erasValidatorReward := fupdate emptyState.erasValidatorReward 0 (some 1000) }
        1 0 = .error .InvalidEraToReward) := by
  intro hc
  have h := (payout_invalid_era_rule
    { emptyState with
      bonded := fupdate emptyState.bonded 2 (some 1)
      ledger := fupdate emptyState.ledger 1 (some ⟨2, 100, 100, [], none⟩)
      erasValidatorReward := fupdate emptyState.erasValidatorReward 0 (some 1000) }
    1 0 ⟨2, 100, 100, [], none⟩ rfl).1
  have h2 := h.mp hc
  rcases h2 with h2 | ⟨lr, hlr, _⟩
  · exact absurd h2 (by decide)
  · exact Option.noConfusion hlr

/-! ## C3 — the validator payout amount -/

/-- **C3**: every successful `payout_validator(who, era)` pays exactly
`point_share × (commission + (1−commission) × own/total) × era_payout`
(the spec's formula under its truncating fraction semantics), where the
point share, the commission snapshot and the exposure all come from the
era's stored data for the caller's stash. -/
theorem payoutValidator_amount
    (s : State) (who era : Nat) (l : StakingLedger) (payout : Nat)
    (hl : s.ledger who = some l)
    (hp : s.erasValidatorReward era = some payout)
    (hb : lastRewardBlocks l.last_reward era = false) :
    (doPayoutValidator s who era).map Prod.snd =
      .ok (specValidatorReward
        (Perbill.fromRational (((s.erasRewardPoints era).individual l.stash).getD 0)
          (s.erasRewardPoints era).total)
        (s.erasValidatorPrefs era l.stash).commission
        (s.erasStakers era l.stash).own
        (s.erasStakers era l.stash).total
        payout) := by
  rw [doPayoutValidator_of_some s who era payout l hp hl, if_neg (by simp [hb])]
  simp only [Except.map]
  unfold validatorRewardAmount specValidatorReward
  rfl

/-- Spec §8 Scenario B: sole validator (stash 2, controller 1) with
`own = 100`, `total = 1000`, commission 10%, all 50 reward points, and an
era payout of 1000. -/
def scenarioBState : State :=
  { emptyState with
    bonded := fupdate emptyState.bonded 2 (some 1)
    ledger := fupdate emptyState.ledger 1 (some ⟨2, 100, 100, [], none⟩)
    payee := fupdate emptyState.payee 2 (some .Controller)
    erasValidatorReward := fupdate emptyState.erasValidatorReward 0 (some 1000)
    erasRewardPoints := fupdate emptyState.erasRewardPoints 0
      ⟨50, fun a => if a = 2 then some 50 else none⟩
    erasValidatorPrefs := dupdate emptyState.erasValidatorPrefs 0 2 ⟨Perbill.fromPercent 10⟩
    erasStakers := dupdate emptyState.erasStakers 0 2 ⟨1000, 100, [⟨3, 900⟩]⟩
    currentEra := some 1 }

/-- Witness for C3: in Scenario B the validator is paid exactly 190. -/
theorem payoutValidator_amount_witness :
    (doPayoutValidator scenarioBState 1 0).map Prod.snd = .ok 190 := by
  have h := payoutValidator_amount scenarioBState 1 0 ⟨2, 100, 100, [], none⟩ 1000
    rfl rfl rfl
  rw [h]
  rfl

/-! ## C9 — nominator payout skips mismatched indices -/

/-- Whether a `(validator, index)` pair survives the lookup inside
`do_payout_nominator`: the supplied index is in range of the validator's
clipped exposure and the entry there names the nominator's stash. -/
def nomPairMatches (s : State) (era stash : Nat) (pair : Nat × Nat) : Bool :=
  match (s.erasStakersClipped era pair.1).others.get? pair.2 with
  | none => false
  | some ne => decide (ne.who = stash)

lemma nomPairAcc_ledger_update (s : State) (x : Nat → Option StakingLedger)
    (era st : Nat) :
    nomPairAcc { s with ledger := x } era st = nomPairAcc s era st := rfl

lemma nomFold_filter (s : State) (era stash : Nat) (vs : List (Nat × Nat)) :
    ∀ acc, vs.foldl (nomPairAcc s era stash) acc =
      (vs.filter (nomPairMatches s era stash)).foldl (nomPairAcc s era stash) acc := by
  induction vs with
  | nil => intro acc; rfl
  | cons p rest ih =>
    intro acc
    by_cases hm : nomPairMatches s era stash p = true
    · simp only [List.filter_cons, hm, if_pos, ite_true, List.foldl_cons]
      exact ih _
    · have hskip : nomPairAcc s era stash acc p = acc := by
        unfold nomPairMatches at hm
        simp only [nomPairAcc]
        cases hg : (s.erasStakersClipped era p.1).others.get? p.2 with
        | none => rfl
        | some ne =>
          rw [hg] at hm
          simp at hm
          simp [hm]
      simp only [List.filter_cons, hm, Bool.false_eq_true, if_neg, ite_false,
        List.foldl_cons, hskip]
      exact ih _

/-- **C9**: a `payout_nominator` call that passes the length, era and ledger
checks always succeeds, and each listed `(validator, index)` pair whose index
is out of range of the clipped exposure — or whose entry there names a
different stash — contributes nothing: the payout equals the payout computed
from the matching pairs alone. -/
theorem payoutNominator_skips_mismatched
    (s : State) (who era : Nat) (l : StakingLedger) (payout : Nat)
    (vs : List (Nat × Nat)) (hlen : vs.length ≤ MAX_NOMINATIONS)
    (hl : s.ledger who = some l)
    (hp : s.erasValidatorReward era = some payout)
    (hb : lastRewardBlocks l.last_reward era = false) :
    (∃ r, doPayoutNominator s who era vs = .ok r)
    ∧ (doPayoutNominator s who era vs).map Prod.snd =
        (doPayoutNominator s who era
          (vs.filter (nomPairMatches s era l.stash))).map Prod.snd := by
  have hlen2 : (vs.filter (nomPairMatches s era l.stash)).length ≤ MAX_NOMINATIONS :=
    le_trans (List.length_filter_le _ _) hlen
  have h1 := doPayoutNominator_of_some s who era payout l vs hlen hp hl
  have h2 := doPayoutNominator_of_some s who era payout l
    (vs.filter (nomPairMatches s era l.stash)) hlen2 hp hl
  rw [if_neg (by simp [hb])] at h1 h2
  refine ⟨⟨_, h1⟩, ?_⟩
  rw [h1, h2]
  simp only [Except.map]
  rw [nomPairAcc_ledger_update]
  rw [nomFold_filter]

/-- Concrete state for the C9 witness: nominator stash 4 (controller 3) sits
at index 0 of validator 2's clipped exposure; the pair list also names index
1 (which points at a different stash) and index 7 (out of range). -/
def c9State : State :=
  { emptyState with
    bonded := fupdate emptyState.bonded 4 (some 3)
    ledger := fupdate emptyState.ledger 3 (some ⟨4, 300, 300, [], none⟩)
    payee := fupdate emptyState.payee 4 (some .Stash)
    erasValidatorReward := fupdate emptyState.erasValidatorReward 0 (some 1000)
    erasRewardPoints := fupdate emptyState.erasRewardPoints 0
      ⟨50, fun a => if a = 2 then some 50 else none⟩
    erasStakersClipped := dupdate emptyState.erasStakersClipped 0 2
      ⟨1000, 100, [⟨4, 300⟩, ⟨5, 600⟩]⟩
    currentEra := some 1 }

/-- Witness for C9: with pairs `[(2,0), (2,1), (2,7)]` — one matching pair,
one index naming a different stash, and one out-of-range index — the call
still succeeds and pays the same as with the matching pair `(2,0)` alone. -/
theorem payoutNominator_skips_mismatched_witness :
    (∃ r, doPayoutNominator c9State 3 0 [(2, 0), (2, 1), (2, 7)] = .ok r)
    ∧ (doPayoutNominator c9State 3 0 [(2, 0), (2, 1), (2, 7)]).map Prod.snd =
        (doPayoutNominator c9State 3 0 [(2, 0)]).map Prod.snd := by
  have h := payoutNominator_skips_mismatched c9State 3 0 ⟨4, 300, 300, [], none⟩ 1000
    [(2, 0), (2, 1), (2, 7)] (by decide) rfl rfl rfl
  exact h

/-! ## C4 / C5 — era scheduling and election infeasibility -/

lemma foldl_pres {σ α β : Type} (g : σ → β) (f : σ → α → σ)
    (hf : ∀ st a, g (f st a) = g st) :
    ∀ (l : List α) (st : σ), g (l.foldl f st) = g st := by
  intro l
  induction l with
  | nil => intro st; rfl
  | cons a rest ih =>
    intro st
    rw [List.foldl_cons, ih, hf]

lemma applyElection_currentEra (s : State) (era : Nat)
    (winners : List (Nat × Nat)) :
    (applyElection s era winners).currentEra = s.currentEra := by
  unfold applyElection
  exact (foldl_pres (fun st : State => st.currentEra)
      (writePref s.validators era) (fun _ _ => rfl) winners _).trans
    ((foldl_pres (fun st : State => st.currentEra) (writeExposure era)
      (fun _ _ => rfl) winners s).trans rfl)

lemma applyElection_forceEra (s : State) (era : Nat)
    (winners : List (Nat × Nat)) :
    (applyElection s era winners).forceEra = s.forceEra := by
  unfold applyElection
  exact (foldl_pres (fun st : State => st.forceEra)
      (writePref s.validators era) (fun _ _ => rfl) winners _).trans
    ((foldl_pres (fun st : State => st.forceEra) (writeExposure era)
      (fun _ _ => rfl) winners s).trans rfl)

lemma selectValidators_currentEra (s0 : State) (era : Nat) :
    (selectValidators s0 era).1.currentEra = s0.currentEra := by
  unfold selectValidators
  cases he : electModel (refreshComplianceStatuses s0).validatorCount
      (max (refreshComplianceStatuses s0).minimumValidatorCount 1)
      ((eligibleValidatorsOf (refreshComplianceStatuses s0)).map (·.1))
      (slashableBalanceOf (refreshComplianceStatuses s0)) with
  | none => rfl
  | some winners =>
    exact (applyElection_currentEra (refreshComplianceStatuses s0) era winners).trans rfl

lemma selectValidators_forceEra (s0 : State) (era : Nat) :
    (selectValidators s0 era).1.forceEra = s0.forceEra := by
  unfold selectValidators
  cases he : electModel (refreshComplianceStatuses s0).validatorCount
      (max (refreshComplianceStatuses s0).minimumValidatorCount 1)
      ((eligibleValidatorsOf (refreshComplianceStatuses s0)).map (·.1))
      (slashableBalanceOf (refreshComplianceStatuses s0)) with
  | none => rfl
  | some winners =>
    exact (applyElection_forceEra (refreshComplianceStatuses s0) era winners).trans rfl

lemma selectValidators_too_few (s0 : State) (era : Nat)
    (h : (eligibleValidatorsOf (refreshComplianceStatuses s0)).length <
      max s0.minimumValidatorCount 1) :
    selectValidators s0 era = (refreshComplianceStatuses s0, none) := by
  unfold selectValidators electModel
  rw [if_pos (by simpa [List.length_map] using h)]

/-- Unfolding of `new_era` when an era is already set. -/
lemma newEra_of_some (s : State) (idx e : Nat) (he : s.currentEra = some e) :
    newEra s idx =
      selectValidators
        (if s.historyDepth + 1 ≤ e + 1 then
          clearEraInformation
            { s with
              currentEra := some (e + 1)
              erasStartSessionIndex :=
                fupdate s.erasStartSessionIndex (e + 1) (some idx) }
            (e + 1 - (s.historyDepth + 1))
        else
          { s with
            currentEra := some (e + 1)
            erasStartSessionIndex :=
              fupdate s.erasStartSessionIndex (e + 1) (some idx) })
        (e + 1) := by
  unfold newEra
  rw [he]

lemma newEra_currentEra_of_some (s : State) (idx e : Nat)
    (he : s.currentEra = some e) :
    (newEra s idx).1.currentEra = some (e + 1) := by
  rw [newEra_of_some s idx e he]
  by_cases hclr : s.historyDepth + 1 ≤ e + 1
  · rw [if_pos hclr, selectValidators_currentEra]
    rfl
  · rw [if_neg hclr, selectValidators_currentEra]

lemma newEra_forceEra_of_some (s : State) (idx e : Nat)
    (he : s.currentEra = some e) :
    (newEra s idx).1.forceEra = s.forceEra := by
  rw [newEra_of_some s idx e he]
  by_cases hclr : s.historyDepth + 1 ≤ e + 1
  · rw [if_pos hclr, selectValidators_forceEra]
    rfl
  · rw [if_neg hclr, selectValidators_forceEra]

/-- Unfolding of `new_session` when an era is already set: the forcing
policy decides. -/
lemma newSession_of_some (cfg : Config) (s : State) (idx e : Nat)
    (he : s.currentEra = some e) :
    newSession cfg s idx =
      (match s.forceEra with
       | .ForceNew => newEra { s with forceEra := .NotForcing } idx
       | .ForceAlways => newEra s idx
       | .NotForcing =>
         if cfg.sessionsPerEra ≤ idx - (s.erasStartSessionIndex e).getD 0 then
           newEra s idx
         else (s, none)
       | .ForceNone => (s, none)) := by
  unfold newSession
  rw [he]

/-- **C4**: when, at an era-advancing `new_session`, fewer eligible
validators exist than the minimum validator count, the election produces no
result and no validator set is returned, yet the era counter is still
incremented and the new era's starting session index is still recorded; the
prior era's stored exposures are untouched. -/
theorem newEra_too_few_validators
    (s : State) (idx e : Nat)
    (he : s.currentEra = some e)
    (hhd : 0 < s.historyDepth)
    (hfew : (eligibleValidatorsOf (refreshComplianceStatuses s)).length <
      s.minimumValidatorCount) :
    (newEra s idx).2 = none
    ∧ (newEra s idx).1.currentEra = some (e + 1)
    ∧ (newEra s idx).1.erasStartSessionIndex (e + 1) = some idx
    ∧ (newEra s idx).1.erasStakers e = s.erasStakers e := by
  rw [newEra_of_some s idx e he]
  by_cases hclr : s.historyDepth + 1 ≤ e + 1
  · rw [if_pos hclr]
    rw [selectValidators_too_few _ (e + 1) (by
      calc (eligibleValidatorsOf (refreshComplianceStatuses
              (clearEraInformation
                { s with
                  currentEra := some (e + 1)
                  erasStartSessionIndex :=
                    fupdate s.erasStartSessionIndex (e + 1) (some idx) }
                (e + 1 - (s.historyDepth + 1))))).length
          = (eligibleValidatorsOf (refreshComplianceStatuses s)).length := rfl
        _ < s.minimumValidatorCount := hfew
        _ ≤ max s.minimumValidatorCount 1 := le_max_left _ _)]
    refine ⟨rfl, rfl, ?_, ?_⟩
    · show (clearEraInformation _ _).erasStartSessionIndex (e + 1) = some idx
      unfold clearEraInformation
      simp only [fupdate]
      rw [if_neg (by omega)]
      simp
    · show (clearEraInformation _ _).erasStakers e = s.erasStakers e
      unfold clearEraInformation
      simp only []
      rw [if_neg (by omega)]
  · rw [if_neg hclr]
    rw [selectValidators_too_few _ (e + 1) (by
      calc (eligibleValidatorsOf (refreshComplianceStatuses
              { s with
                currentEra := some (e + 1)
                erasStartSessionIndex :=
                  fupdate s.erasStartSessionIndex (e + 1) (some idx) })).length
          = (eligibleValidatorsOf (refreshComplianceStatuses s)).length := rfl
        _ < s.minimumValidatorCount := hfew
        _ ≤ max s.minimumValidatorCount 1 := le_max_left _ _)]
    refine ⟨rfl, rfl, ?_, rfl⟩
    show fupdate s.erasStartSessionIndex (e + 1) (some idx) (e + 1) = some idx
    simp [fupdate]

/-- Witness for C4 — spec §8 Scenario C shape: era 3 is current,
`minimum_validator_count = 4` (the `emptyState` default) but no validators
are registered, so the election is infeasible; the era still advances to 4
and records its start session. -/
theorem newEra_too_few_validators_witness :
    ((newEra { emptyState with currentEra := some 3 } 7).2 = none
      ∧ (newEra { emptyState with currentEra := some 3 } 7).1.currentEra = some 4
      ∧ (newEra { emptyState with currentEra := some 3 } 7).1.erasStartSessionIndex 4 =
          some 7
      ∧ (newEra { emptyState with currentEra := some 3 } 7).1.erasStakers 3 =
          { emptyState with currentEra := some 3 }.erasStakers 3) :=
  newEra_too_few_validators { emptyState with currentEra := some 3 } 7 3
    rfl (by decide) (by decide)

/-- **C5 counterexample**: with no initial era set, `new_session` plans the
initial era even under `ForceNone` — the claim's "under ForceNone no new era
is ever planned" fails at the pre-genesis state. -/
theorem newSession_forceNone_initial_era_planned :
    ({ emptyState with forceEra := .ForceNone } : State).forceEra = Forcing.ForceNone
    ∧ (newSession cfg7 { emptyState with forceEra := .ForceNone } 5).1.currentEra =
        some 0 := by
  exact ⟨rfl, rfl⟩

/-- **C5 (amended)**: once an era has been set, `new_session` is decided by
the forcing policy: under `ForceNone` no new era is planned (the state is
returned unchanged); under `ForceNew` a new era is planned and the policy
resets to `NotForcing`; under `ForceAlways` a new era is always planned;
under `NotForcing` a new era is planned exactly when the sessions elapsed
since the current era's recorded start-session reach the configured
sessions-per-era.  (With no era set, the first `new_session` plans the
initial era regardless of the policy.) -/
theorem newSession_forcing_policy
    (cfg : Config) (s : State) (idx e : Nat)
    (he : s.currentEra = some e) :
    (s.forceEra = .ForceNone → newSession cfg s idx = (s, none))
    ∧ (s.forceEra = .ForceNew →
        (newSession cfg s idx).1.currentEra = some (e + 1)
        ∧ (newSession cfg s idx).1.forceEra = .NotForcing)
    ∧ (s.forceEra = .ForceAlways →
        (newSession cfg s idx).1.currentEra = some (e + 1))
    ∧ (s.forceEra = .NotForcing →
        ((newSession cfg s idx).1.currentEra = some (e + 1) ↔
          cfg.sessionsPerEra ≤ idx - (s.erasStartSessionIndex e).getD 0)) := by
  rw [newSession_of_some cfg s idx e he]
  refine ⟨?_, ?_, ?_, ?_⟩
  · intro hf
    rw [hf]
  · intro hf
    rw [hf]
    constructor
    · exact newEra_currentEra_of_some { s with forceEra := .NotForcing } idx e he
    · exact newEra_forceEra_of_some { s with forceEra := .NotForcing } idx e he
  · intro hf
    rw [hf]
    exact newEra_currentEra_of_some s idx e he
  · intro hf
    rw [hf]
    by_cases hsess : cfg.sessionsPerEra ≤ idx - (s.erasStartSessionIndex e).getD 0
    · show ((if cfg.sessionsPerEra ≤ idx - (s.erasStartSessionIndex e).getD 0 then
          newEra s idx else (s, none)).1.currentEra = some (e + 1)) ↔ _
      rw [if_pos hsess]
      simp only [hsess, iff_true]
      exact newEra_currentEra_of_some s idx e he
    · show ((if cfg.sessionsPerEra ≤ idx - (s.erasStartSessionIndex e).getD 0 then
          newEra s idx else (s, none)).1.currentEra = some (e + 1)) ↔ _
      rw [if_neg hsess]
      simp only [hsess, iff_false]
      rw [he]
      simp

/-- Witness for C5 at a concrete state: with `ForceNone` and era 2 current,
`new_session` leaves the state unchanged. -/
theorem newSession_forcing_policy_witness :
    newSession cfg7
      { emptyState with currentEra := some 2, forceEra := .ForceNone } 9 =
      ({ emptyState with currentEra := some 2, forceEra := .ForceNone }, none) :=
  (newSession_forcing_policy cfg7
    { emptyState with currentEra := some 2, forceEra := .ForceNone } 9 2 rfl).1 rfl

end Staking
